import Mathlib

/-!
Verification of the dynamic size expression engine of the freya layout
framework (the `Size` value model, the `calc(...)` expression parser and the
two-stack evaluator).  The engine itself lives in the `torin` / `freya-core`
crates; the repository snapshot under study contains only its test suite
(`crates/core/tests/parse_size.rs`), so the parser and evaluator are modelled
from the specification document, with the test suite fixing the expected
outputs.  Floating point numbers are modelled as rationals: every numeric
literal of the attribute grammar is a decimal and the claims under study only
involve exact decimal arithmetic.
-/

namespace Torin

/-- Modelled from the spec: one element of a `Calculation`'s token sequence
(`CalcToken` in the spec, `DynamicCalculation` in the test suite): pixel,
parent-percentage and root-percentage operands, the four binary operators,
and explicit parenthesis markers retained in the flattened sequence. -/
inductive DynamicCalculation where
  | Pixels (v : ℚ)
  | Percentage (v : ℚ)
  | RootPercentage (v : ℚ)
  | Add
  | Sub
  | Mul
  | Div
  | OpenParenthesis
  | ClosedParenthesis
deriving DecidableEq

/-- Modelled from the spec: the closed-form sizing descriptor `Size`: absolute
pixels, parent-relative percentage, `Inner` ("auto"), or a deferred
`Calculation` carrying a scale multiplier and a flat token sequence
(`DynamicCalculations` in the test suite). -/
inductive Size where
  | Inner
  | Pixels (v : ℚ)
  | Percentage (v : ℚ)
  | DynamicCalculations (scale : ℚ) (calcs : List DynamicCalculation)
deriving DecidableEq

/-- Modelled from the spec: the parse error taxonomy of §7. -/
inductive ParseError where
  | MalformedNumber
  | UnrecognizedUnit
  | UnbalancedParentheses
  | InvalidExpressionStructure
deriving DecidableEq

/-- Modelled from the spec: the resolution context supplied by the layout
collaborator: parent dimension, root/viewport dimension, and the previously
measured content size used for `Inner`. -/
structure ResolutionContext where
  parent_dimension : ℚ
  root_dimension : ℚ
  measured_content_size : ℚ
deriving DecidableEq

/-! ### Parser -/

/-- Drop leading whitespace (whitespace is insignificant between tokens
inside `calc(...)`). -/
def skipWs (cs : List Char) : List Char :=
  cs.dropWhile Char.isWhitespace

/-- Numeric value of a run of decimal digit characters. -/
def digitsToNat (ds : List Char) : Nat :=
  ds.foldl (fun a c => 10 * a + (c.toNat - '0'.toNat)) 0

/-- Strip an optional leading sign, reporting whether it was a minus. -/
def stripSign (cs : List Char) : Bool × List Char :=
  match cs with
  | [] => (false, [])
  | c :: r =>
    if c = '-' then (true, r)
    else if c = '+' then (false, r)
    else (false, c :: r)

/-- Modelled from the spec: read a numeric literal
(`number := optional sign, digits, optional "." digits`) from the front of a
character list, returning its exact rational value and the remaining
characters; `none` when no well-formed number starts here. -/
def parseNumber (cs : List Char) : Option (ℚ × List Char) :=
  let sign := (stripSign cs).1
  let cs₁ := (stripSign cs).2
  let ds := cs₁.takeWhile Char.isDigit
  let rest := cs₁.dropWhile Char.isDigit
  if ds = [] then none
  else
    match rest with
    | '.' :: r₂ =>
      let fs := r₂.takeWhile Char.isDigit
      let rest₂ := r₂.dropWhile Char.isDigit
      if fs = [] then none
      else
        let v : ℚ := (digitsToNat ds : ℚ) + (digitsToNat fs : ℚ) / (10 : ℚ) ^ fs.length
        some (if sign then -v else v, rest₂)
    | _ => some (if sign then -(digitsToNat ds : ℚ) else (digitsToNat ds : ℚ), rest)

/-- Read a numeric literal that must span the whole character list. -/
def parseNumberFull (cs : List Char) : Option ℚ :=
  match parseNumber cs with
  | some (q, []) => some q
  | _ => none

/-- Binary operator character of the calc grammar, as a token. -/
def binOpOf? (c : Char) : Option DynamicCalculation :=
  if c = '+' then some DynamicCalculation.Add
  else if c = '-' then some DynamicCalculation.Sub
  else if c = '*' then some DynamicCalculation.Mul
  else if c = '/' then some DynamicCalculation.Div
  else none

mutual

/-- Modelled from the spec: parse one `term := number unit? | "(" calc_expr ")"`
of the calc grammar, classifying the unit suffix (`%` → `Percentage`, `v` →
`RootPercentage`, none → `Pixels`) and emitting parenthesis markers verbatim.
Fuel bounds the recursion depth. -/
def parseTerm : Nat → List Char → Option (List DynamicCalculation × List Char)
  | 0, _ => none
  | fuel + 1, cs =>
    match skipWs cs with
    | '(' :: rest =>
      match parseExpr fuel rest with
      | some (toks, rest₂) =>
        match skipWs rest₂ with
        | ')' :: rest₃ =>
          some (DynamicCalculation.OpenParenthesis ::
            (toks ++ [DynamicCalculation.ClosedParenthesis]), rest₃)
        | _ => none
      | none => none
    | cs₂ =>
      match parseNumber cs₂ with
      | some (q, rest) =>
        match rest with
        | '%' :: r => some ([DynamicCalculation.Percentage q], r)
        | 'v' :: r => some ([DynamicCalculation.RootPercentage q], r)
        | _ => some ([DynamicCalculation.Pixels q], rest)
      | none => none

/-- Modelled from the spec: parse `calc_expr := term (ws* binop ws* term)*`,
flattening the expression into the token sequence in source order. -/
def parseExpr : Nat → List Char → Option (List DynamicCalculation × List Char)
  | 0, _ => none
  | fuel + 1, cs =>
    match parseTerm fuel cs with
    | some (toks, rest) => parseExprLoop fuel toks rest
    | none => none

/-- Modelled from the spec: the `(ws* binop ws* term)*` continuation of
`calc_expr`.  An explicit operator appends its token and the following term.
An operand or close parenthesis followed (after optional whitespace) by an
open parenthesis with no operator between is accepted as implicit
multiplication; the repository's own test (`parse_calc_size`) shows that no
`Mul` token is inserted for it — the operand is directly followed by the
`OpenParenthesis` marker in the output sequence, and the multiplication is
applied by the evaluator — so the group's tokens are appended verbatim.
Anything else ends the expression. -/
def parseExprLoop :
    Nat → List DynamicCalculation → List Char →
    Option (List DynamicCalculation × List Char)
  | 0, _, _ => none
  | fuel + 1, acc, cs =>
    match skipWs cs with
    | [] => some (acc, [])
    | c :: rest =>
      match binOpOf? c with
      | some o =>
        match parseTerm fuel rest with
        | some (toks, rest₂) => parseExprLoop fuel (acc ++ o :: toks) rest₂
        | none => none
      | none =>
        if c = '(' then
          match parseTerm fuel (c :: rest) with
          | some (toks, rest₂) => parseExprLoop fuel (acc ++ toks) rest₂
          | none => none
        else some (acc, c :: rest)

end

/-- The characters `calc(` opening a calc expression. -/
def calcOpenChars : List Char := ['c', 'a', 'l', 'c', '(']

/-- Modelled from the spec: `Size::parse`, the outer fixed-order dispatch:
try `auto`, then `calc(...)`, then percentage, then pixels; the first
structural match wins.  A successful calc parse is wrapped with scale `1`. -/
def Size.parse (s : String) : Except ParseError Size :=
  let cs := s.toList
  if s = "auto" then Except.ok Size.Inner
  else if cs.take 5 = calcOpenChars then
    match parseExpr (2 * cs.length + 4) (cs.drop 5) with
    | some (toks, rest) =>
      match skipWs rest with
      | ')' :: r =>
        if skipWs r = [] then Except.ok (Size.DynamicCalculations 1 toks)
        else Except.error ParseError.InvalidExpressionStructure
      | [] => Except.error ParseError.UnbalancedParentheses
      | _ => Except.error ParseError.InvalidExpressionStructure
    | none => Except.error ParseError.InvalidExpressionStructure
  else if cs.getLast? = some '%' then
    match parseNumberFull cs.dropLast with
    | some q => Except.ok (Size.Percentage q)
    | none => Except.error ParseError.MalformedNumber
  else
    match parseNumberFull cs with
    | some q => Except.ok (Size.Pixels q)
    | none => Except.error ParseError.MalformedNumber

/-! ### Evaluator -/

/-- A binary operator of the evaluator. -/
inductive CalcOp where
  | add
  | sub
  | mul
  | div
deriving DecidableEq

/-- An entry of the evaluator's operator stack: a pending binary operator or
the marker pushed by `OpenParenthesis`. -/
inductive StackItem where
  | op (o : CalcOp)
  | paren
deriving DecidableEq

/-- Operator precedence: `*` and `/` bind tighter than `+` and `-`. -/
def prec : CalcOp → Nat
  | CalcOp.mul => 2
  | CalcOp.div => 2
  | CalcOp.add => 1
  | CalcOp.sub => 1

/-- Modelled from the spec: apply a binary operator to two operands; a
division whose right operand is zero is guarded and contributes zero instead
of propagating a non-finite value. -/
def applyBin (o : CalcOp) (a b : ℚ) : ℚ :=
  match o with
  | CalcOp.add => a + b
  | CalcOp.sub => a - b
  | CalcOp.mul => a * b
  | CalcOp.div => if b = 0 then 0 else a / b

/-- Pop and apply pending operators from the operator stack while its top is
a binary operator satisfying `cond`, stopping at a parenthesis marker or at
the stack bottom; fails when an application lacks two operands. -/
def popApply (cond : CalcOp → Bool) :
    List ℚ → List StackItem → Option (List ℚ × List StackItem)
  | vals, StackItem.op o :: rest =>
    if cond o then
      match vals with
      | b :: a :: vs => popApply cond (applyBin o a b :: vs) rest
      | _ => none
    else some (vals, StackItem.op o :: rest)
  | vals, s => some (vals, s)

/-- Push a binary operator: first apply every pending operator of greater or
equal precedence (equal precedence associates left to right), then push. -/
def pushOp (o : CalcOp) (vals : List ℚ) (ops : List StackItem) :
    Option (List ℚ × List StackItem) :=
  match popApply (fun p => prec o ≤ prec p) vals ops with
  | some (vals₂, ops₂) => some (vals₂, StackItem.op o :: ops₂)
  | none => none

/-- Push a binary operator and report that an operand is now expected. -/
def stepBin (o : CalcOp) (vals : List ℚ) (ops : List StackItem) :
    Option (List ℚ × List StackItem × Bool) :=
  match pushOp o vals ops with
  | some (vals₂, ops₂) => some (vals₂, ops₂, false)
  | none => none

/-- Modelled from the spec: process one token of the flattened sequence on
the two-stack state: operands push their resolved value (`Pixels(v)` pushes
`v`, `Percentage(p)` pushes `p / 100 * parent_dimension`, `RootPercentage(p)`
pushes `p / 100 * root_dimension`); `OpenParenthesis` pushes a marker;
`ClosedParenthesis` applies operators down to the matching marker.  The
boolean records whether the previous token completed an operand or group;
an `OpenParenthesis` arriving in that position is the parser's implicit
multiplication (the test sequence `50v(5 + 6)` carries no `Mul` token), so
an implicit `Mul` operator is pushed before the marker. -/
def stepToken (ctx : ResolutionContext) (vals : List ℚ) (ops : List StackItem)
    (afterOperand : Bool) :
    DynamicCalculation → Option (List ℚ × List StackItem × Bool)
  | DynamicCalculation.Pixels v => some (v :: vals, ops, true)
  | DynamicCalculation.Percentage p =>
    some (p / 100 * ctx.parent_dimension :: vals, ops, true)
  | DynamicCalculation.RootPercentage p =>
    some (p / 100 * ctx.root_dimension :: vals, ops, true)
  | DynamicCalculation.OpenParenthesis =>
    if afterOperand then
      match pushOp CalcOp.mul vals ops with
      | some (vals₂, ops₂) => some (vals₂, StackItem.paren :: ops₂, false)
      | none => none
    else some (vals, StackItem.paren :: ops, false)
  | DynamicCalculation.ClosedParenthesis =>
    match popApply (fun _ => true) vals ops with
    | some (vals₂, StackItem.paren :: ops₂) => some (vals₂, ops₂, true)
    | _ => none
  | DynamicCalculation.Add => stepBin CalcOp.add vals ops
  | DynamicCalculation.Sub => stepBin CalcOp.sub vals ops
  | DynamicCalculation.Mul => stepBin CalcOp.mul vals ops
  | DynamicCalculation.Div => stepBin CalcOp.div vals ops

/-- Process a token sequence left to right on the two-stack state. -/
def processTokens (ctx : ResolutionContext) :
    List DynamicCalculation → List ℚ → List StackItem → Bool →
    Option (List ℚ × List StackItem × Bool)
  | [], vals, ops, afterOperand => some (vals, ops, afterOperand)
  | t :: ts, vals, ops, afterOperand =>
    match stepToken ctx vals ops afterOperand t with
    | some (v₂, o₂, f₂) => processTokens ctx ts v₂ o₂ f₂
    | none => none

/-- Modelled from the spec: evaluate a flattened token sequence under a
resolution context with the two-stack precedence evaluator; at end of input
the remaining operators are applied in stack order and the single remaining
operand is the result.  `none` signals a structurally invalid sequence (the
parser never produces one). -/
def evaluate (toks : List DynamicCalculation) (ctx : ResolutionContext) :
    Option ℚ :=
  match processTokens ctx toks [] [] false with
  | some (vals, ops, _) =>
    match popApply (fun _ => true) vals ops with
    | some ([r], []) => some r
    | _ => none
  | none => none

/-- Modelled from the spec: `resolve(size, ctx)`: `Pixels` yields its value,
`Percentage(p)` yields `p / 100 * parent_dimension`, `Inner` yields the
measured content size, and a `Calculation` evaluates its token sequence and
applies its scale; the final resolved value is clamped to be non-negative
before being handed to the layout collaborator. -/
def resolve (size : Size) (ctx : ResolutionContext) : ℚ :=
  let raw :=
    match size with
    | Size.Inner => ctx.measured_content_size
    | Size.Pixels v => v
    | Size.Percentage p => p / 100 * ctx.parent_dimension
    | Size.DynamicCalculations scale toks => scale * (evaluate toks ctx).getD 0
  if raw < 0 then 0 else raw

/-! ### Structural invariants of parsed token sequences -/

/-- Whether a token is an operand (pixel, percentage or root percentage). -/
def isOperand : DynamicCalculation → Bool
  | DynamicCalculation.Pixels _ => true
  | DynamicCalculation.Percentage _ => true
  | DynamicCalculation.RootPercentage _ => true
  | _ => false

/-- Whether a token is one of the four binary operators. -/
def isOpToken : DynamicCalculation → Bool
  | DynamicCalculation.Add => true
  | DynamicCalculation.Sub => true
  | DynamicCalculation.Mul => true
  | DynamicCalculation.Div => true
  | _ => false

/-- The grammar of flattened token sequences actually produced by the
parser.  `Gram true` derives one term (a single operand, or a parenthesized
group), `Gram false` derives a full expression: a term followed by any
number of continuations, each either an explicit binary operator and a term,
or an implicitly multiplied parenthesized group appended with no operator
token in between (the adjacency form shown by the `parse_calc_size` test). -/
inductive Gram : Bool → List DynamicCalculation → Prop where
  | operand {t : DynamicCalculation} (h : isOperand t = true) : Gram true [t]
  | paren {e : List DynamicCalculation} (h : Gram false e) :
      Gram true (DynamicCalculation.OpenParenthesis ::
        (e ++ [DynamicCalculation.ClosedParenthesis]))
  | single {t : List DynamicCalculation} (h : Gram true t) : Gram false t
  | snoc_op {e t : List DynamicCalculation} {o : DynamicCalculation}
      (he : Gram false e) (ho : isOpToken o = true) (ht : Gram true t) :
      Gram false (e ++ o :: t)
  | snoc_adj {e inner : List DynamicCalculation}
      (he : Gram false e) (hi : Gram false inner) :
      Gram false (e ++ DynamicCalculation.OpenParenthesis ::
        (inner ++ [DynamicCalculation.ClosedParenthesis]))

/-- Parenthesis balance checker: `balancedAux n ts` scans `ts` with `n` open
parentheses pending and accepts when every close parenthesis matches an open
one and the scan ends at depth zero. -/
def balancedAux : Nat → List DynamicCalculation → Bool
  | n, [] => n == 0
  | n, DynamicCalculation.OpenParenthesis :: ts => balancedAux (n + 1) ts
  | n, DynamicCalculation.ClosedParenthesis :: ts =>
    match n with
    | 0 => false
    | m + 1 => balancedAux m ts
  | n, _ :: ts => balancedAux n ts

/-- Strict operator/operand alternation as the specification words it: an
operand or an open parenthesis must appear exactly where an operand is
expected, a binary operator or a close parenthesis exactly where one is not,
and the sequence must end at depth zero not expecting an operand.  This is
the checker for the claimed invariant, written from the spec's words so the
parser's actual output can be compared against it. -/
def altCheck : List DynamicCalculation → Nat → Bool → Bool
  | [], depth, expectOperand => depth == 0 && !expectOperand
  | t :: ts, depth, expectOperand =>
    match t with
    | DynamicCalculation.OpenParenthesis =>
      expectOperand && altCheck ts (depth + 1) true
    | DynamicCalculation.ClosedParenthesis =>
      !expectOperand && decide (0 < depth) && altCheck ts (depth - 1) false
    | DynamicCalculation.Add => !expectOperand && altCheck ts depth true
    | DynamicCalculation.Sub => !expectOperand && altCheck ts depth true
    | DynamicCalculation.Mul => !expectOperand && altCheck ts depth true
    | DynamicCalculation.Div => !expectOperand && altCheck ts depth true
    | _ => expectOperand && altCheck ts depth false

/-- Modelled from the spec: the claimed alternation invariant — operators
strictly alternate with operands/groups over a balanced, non-empty
sequence. -/
def strictlyAlternates (ts : List DynamicCalculation) : Bool :=
  altCheck ts 0 true

/-! ### Lemmas: the evaluator succeeds on every grammatical token sequence -/

theorem processTokens_append (ctx : ResolutionContext)
    (a b : List DynamicCalculation) :
    ∀ vals ops fl,
      processTokens ctx (a ++ b) vals ops fl =
        match processTokens ctx a vals ops fl with
        | some (v₂, o₂, f₂) => processTokens ctx b v₂ o₂ f₂
        | none => none := by
  induction a with
  | nil => intro vals ops fl; simp [processTokens]
  | cons t a ih =>
    intro vals ops fl
    simp only [List.cons_append, processTokens]
    cases stepToken ctx vals ops fl t with
    | none => simp
    | some st =>
      obtain ⟨v₂, o₂, f₂⟩ := st
      simp [ih]

theorem popApply_seg (cond : CalcOp → Bool) :
    ∀ (s : List StackItem) (w vals : List ℚ) (o : List StackItem),
      (∀ x ∈ s, ∃ c, x = StackItem.op c) → w.length = s.length + 1 →
      (o = [] ∨ ∃ t, o = StackItem.paren :: t) →
      ∃ w₂ s₂,
        popApply cond (w ++ vals) (s ++ o) = some (w₂ ++ vals, s₂ ++ o) ∧
        (∀ x ∈ s₂, ∃ c, x = StackItem.op c) ∧
        w₂.length = s₂.length + 1 ∧
        (∀ c, s₂.head? = some (StackItem.op c) → cond c = false) := by
  intro s
  induction s with
  | nil =>
    intro w vals o _ hw ho
    refine ⟨w, [], ?_, by simp, by simpa using hw, by simp⟩
    rcases ho with rfl | ⟨t, rfl⟩
    · simp [popApply]
    · simp [popApply]
  | cons x s' ih =>
    intro w vals o hall hw ho
    obtain ⟨c, rfl⟩ := hall x (by simp)
    by_cases hc : cond c = true
    · match w, hw with
      | b :: a :: w', hw =>
        have hw' : (applyBin c a b :: w').length = s'.length + 1 := by
          simpa using hw
        obtain ⟨w₂, s₂, heq, hall₂, hlen₂, hcond₂⟩ :=
          ih (applyBin c a b :: w') vals o (fun y hy => hall y (by simp [hy])) hw' ho
        refine ⟨w₂, s₂, ?_, hall₂, hlen₂, hcond₂⟩
        simpa [popApply, hc] using heq
    · refine ⟨w, StackItem.op c :: s', ?_, hall, hw, ?_⟩
      · simp [popApply, hc]
      · intro c' hc'
        simp at hc'
        subst hc'
        simpa using hc

theorem stepToken_operand (ctx : ResolutionContext) (vals : List ℚ)
    (ops : List StackItem) (fl : Bool) {t : DynamicCalculation}
    (h : isOperand t = true) :
    ∃ x, stepToken ctx vals ops fl t = some (x :: vals, ops, true) := by
  cases t with
  | Pixels v => exact ⟨v, rfl⟩
  | Percentage p => exact ⟨p / 100 * ctx.parent_dimension, rfl⟩
  | RootPercentage p => exact ⟨p / 100 * ctx.root_dimension, rfl⟩
  | Add => simp [isOperand] at h
  | Sub => simp [isOperand] at h
  | Mul => simp [isOperand] at h
  | Div => simp [isOperand] at h
  | OpenParenthesis => simp [isOperand] at h
  | ClosedParenthesis => simp [isOperand] at h

theorem stepToken_op (ctx : ResolutionContext) (vals : List ℚ)
    (ops : List StackItem) (fl : Bool) {o : DynamicCalculation}
    (ho : isOpToken o = true) :
    ∃ c, stepToken ctx vals ops fl o = stepBin c vals ops := by
  cases o with
  | Add => exact ⟨CalcOp.add, rfl⟩
  | Sub => exact ⟨CalcOp.sub, rfl⟩
  | Mul => exact ⟨CalcOp.mul, rfl⟩
  | Div => exact ⟨CalcOp.div, rfl⟩
  | Pixels v => simp [isOpToken] at ho
  | Percentage p => simp [isOpToken] at ho
  | RootPercentage p => simp [isOpToken] at ho
  | OpenParenthesis => simp [isOpToken] at ho
  | ClosedParenthesis => simp [isOpToken] at ho

theorem processGram (ctx : ResolutionContext) {b : Bool}
    {ts : List DynamicCalculation} (h : Gram b ts) :
    ∀ vals ops,
      (b = true →
        ∃ x, processTokens ctx ts vals ops false = some (x :: vals, ops, true)) ∧
      (b = false → (ops = [] ∨ ∃ t, ops = StackItem.paren :: t) →
        ∃ w s,
          processTokens ctx ts vals ops false = some (w ++ vals, s ++ ops, true) ∧
          (∀ x ∈ s, ∃ c, x = StackItem.op c) ∧ w.length = s.length + 1) := by
  induction h with
  | @operand t h =>
    intro vals ops
    refine ⟨fun _ => ?_, fun hb => by simp at hb⟩
    obtain ⟨x, hx⟩ := stepToken_operand ctx vals ops false h
    exact ⟨x, by simp [processTokens, hx]⟩
  | @paren e h ih =>
    intro vals ops
    refine ⟨fun _ => ?_, fun hb => by simp at hb⟩
    obtain ⟨w, s, heq, hall, hlen⟩ :=
      (ih vals (StackItem.paren :: ops)).2 rfl (Or.inr ⟨ops, rfl⟩)
    obtain ⟨w₂, s₂, heq₂, hall₂, hlen₂, hcond₂⟩ :=
      popApply_seg (fun _ => true) s w vals (StackItem.paren :: ops) hall hlen
        (Or.inr ⟨ops, rfl⟩)
    have hs₂ : s₂ = [] := by
      cases s₂ with
      | nil => rfl
      | cons y t =>
        obtain ⟨c, rfl⟩ := hall₂ y (by simp)
        have := hcond₂ c (by simp)
        simp at this
    subst hs₂
    obtain ⟨r, rfl⟩ := List.length_eq_one.mp hlen₂
    refine ⟨r, ?_⟩
    have h1 :
        processTokens ctx
          (DynamicCalculation.OpenParenthesis ::
            (e ++ [DynamicCalculation.ClosedParenthesis])) vals ops false =
        processTokens ctx (e ++ [DynamicCalculation.ClosedParenthesis]) vals
          (StackItem.paren :: ops) false := by
      simp [processTokens, stepToken]
    rw [h1, processTokens_append, heq]
    simp only [List.singleton_append] at heq₂
    simp [processTokens, stepToken, heq₂]
  | single h ih =>
    intro vals ops
    refine ⟨fun hb => by simp at hb, fun _ _ => ?_⟩
    obtain ⟨x, hx⟩ := (ih vals ops).1 rfl
    exact ⟨[x], [], by simpa using hx, by simp, by simp⟩
  | @snoc_op e t o he ho ht ihe iht =>
    intro vals ops
    refine ⟨fun hb => by simp at hb, fun _ hops => ?_⟩
    obtain ⟨w, s, heq, hall, hlen⟩ := (ihe vals ops).2 rfl hops
    obtain ⟨c, hstep⟩ := stepToken_op ctx (w ++ vals) (s ++ ops) true ho
    obtain ⟨w₂, s₂, heq₂, hall₂, hlen₂, _⟩ :=
      popApply_seg (fun p => decide (prec c ≤ prec p)) s w vals ops hall hlen hops
    have hbin : stepBin c (w ++ vals) (s ++ ops) =
        some (w₂ ++ vals, StackItem.op c :: (s₂ ++ ops), false) := by
      simp [stepBin, pushOp, heq₂]
    obtain ⟨x, heqt⟩ := (iht (w₂ ++ vals) (StackItem.op c :: (s₂ ++ ops))).1 rfl
    refine ⟨x :: w₂, StackItem.op c :: s₂, ?_, ?_, by simp [hlen₂]⟩
    · rw [processTokens_append, heq]
      simp only [processTokens, hstep, hbin]
      simpa using heqt
    · intro y hy
      rcases List.mem_cons.mp hy with rfl | hy'
      · exact ⟨c, rfl⟩
      · exact hall₂ y hy'
  | @snoc_adj e inner he hi ihe ihi =>
    intro vals ops
    refine ⟨fun hb => by simp at hb, fun _ hops => ?_⟩
    obtain ⟨w, s, heq, hall, hlen⟩ := (ihe vals ops).2 rfl hops
    obtain ⟨w₂, s₂, heq₂, hall₂, hlen₂, _⟩ :=
      popApply_seg (fun p => decide (prec CalcOp.mul ≤ prec p)) s w vals ops hall
        hlen hops
    have hopen : stepToken ctx (w ++ vals) (s ++ ops) true
        DynamicCalculation.OpenParenthesis =
        some (w₂ ++ vals,
          StackItem.paren :: StackItem.op CalcOp.mul :: (s₂ ++ ops), false) := by
      simp [stepToken, pushOp, heq₂]
    obtain ⟨w₃, s₃, heq₃, hall₃, hlen₃⟩ :=
      (ihi (w₂ ++ vals)
        (StackItem.paren :: StackItem.op CalcOp.mul :: (s₂ ++ ops))).2 rfl
        (Or.inr ⟨_, rfl⟩)
    obtain ⟨w₄, s₄, heq₄, hall₄, hlen₄, hcond₄⟩ :=
      popApply_seg (fun _ => true) s₃ w₃ (w₂ ++ vals)
        (StackItem.paren :: StackItem.op CalcOp.mul :: (s₂ ++ ops)) hall₃ hlen₃
        (Or.inr ⟨_, rfl⟩)
    have hs₄ : s₄ = [] := by
      cases s₄ with
      | nil => rfl
      | cons y t =>
        obtain ⟨c, rfl⟩ := hall₄ y (by simp)
        have := hcond₄ c (by simp)
        simp at this
    subst hs₄
    obtain ⟨r, rfl⟩ := List.length_eq_one.mp hlen₄
    refine ⟨r :: w₂, StackItem.op CalcOp.mul :: s₂, ?_, ?_, by simp [hlen₂]⟩
    · rw [processTokens_append, heq]
      simp only [processTokens, hopen]
      rw [processTokens_append, heq₃]
      simp only [List.singleton_append] at heq₄
      simp [processTokens, stepToken, heq₄]
    · intro y hy
      rcases List.mem_cons.mp hy with rfl | hy'
      · exact ⟨CalcOp.mul, rfl⟩
      · exact hall₂ y hy'

theorem binOpOf?_isOp {c : Char} {o : DynamicCalculation}
    (h : binOpOf? c = some o) : isOpToken o = true := by
  unfold binOpOf? at h
  split_ifs at h <;> simp_all [isOpToken] <;> subst h <;> rfl

theorem parser_sound (fuel : Nat) :
    (∀ cs toks rest, parseTerm fuel cs = some (toks, rest) →
      Gram true toks ∧
      (∀ r, skipWs cs = '(' :: r →
        ∃ inner, toks = DynamicCalculation.OpenParenthesis ::
          (inner ++ [DynamicCalculation.ClosedParenthesis]) ∧ Gram false inner)) ∧
    (∀ cs toks rest, parseExpr fuel cs = some (toks, rest) → Gram false toks) ∧
    (∀ acc cs toks rest, Gram false acc →
      parseExprLoop fuel acc cs = some (toks, rest) → Gram false toks) := by
  induction fuel with
  | zero =>
    refine ⟨?_, ?_, ?_⟩
    · intro cs toks rest h
      simp [parseTerm] at h
    · intro cs toks rest h
      simp [parseExpr] at h
    · intro acc cs toks rest _ h
      simp [parseExprLoop] at h
  | succ fuel ih =>
    obtain ⟨ihT, ihE, ihL⟩ := ih
    refine ⟨?_, ?_, ?_⟩
    · intro cs toks rest h
      simp only [parseTerm] at h
      split at h <;> [skip; skip]
      · split at h <;> [skip; exact absurd h (by simp)]
        rename_i x1 rest₀ hws x2 toks₀ rest₂ heq
        split at h <;> [skip; exact absurd h (by simp)]
        injection h with h'
        injection h' with h1 h2
        subst h1
        have hG : Gram false toks₀ := ihE rest₀ toks₀ rest₂ heq
        exact ⟨Gram.paren hG, fun r hr => ⟨toks₀, rfl, hG⟩⟩
      · split at h <;> [skip; exact absurd h (by simp)]
        rename_i x1 hnp x2 q rest₀ heq
        split at h
        · injection h with h'
          injection h' with h1 h2
          subst h1
          exact ⟨Gram.operand rfl, fun r hr => (hnp r hr).elim⟩
        · injection h with h'
          injection h' with h1 h2
          subst h1
          exact ⟨Gram.operand rfl, fun r hr => (hnp r hr).elim⟩
        · injection h with h'
          injection h' with h1 h2
          subst h1
          exact ⟨Gram.operand rfl, fun r hr => (hnp r hr).elim⟩
    · intro cs toks rest h
      simp only [parseExpr] at h
      split at h <;> [skip; exact absurd h (by simp)]
      rename_i x0 toks₀ rest₀ heq
      exact ihL toks₀ rest₀ toks rest (Gram.single (ihT cs toks₀ rest₀ heq).1) h
    · intro acc cs toks rest hacc h
      simp only [parseExprLoop] at h
      split at h
      · injection h with h'
        injection h' with h1 h2
        subst h1
        exact hacc
      · rename_i x0 c rest' hws
        split at h
        · rename_i x1 o hop
          split at h <;> [skip; exact absurd h (by simp)]
          rename_i x2 toks₁ rest₂ heq
          exact ihL (acc ++ o :: toks₁) rest₂ toks rest
            (Gram.snoc_op hacc (binOpOf?_isOp hop) (ihT rest' toks₁ rest₂ heq).1) h
        · split at h
          · rename_i hc
            subst hc
            split at h <;> [skip; exact absurd h (by simp)]
            rename_i x2 toks₁ rest₂ heq
            obtain ⟨inner, htoks₁, hinner⟩ :=
              (ihT ('(' :: rest') toks₁ rest₂ heq).2 rest' (by simp [skipWs])
            subst htoks₁
            exact ihL _ rest₂ toks rest (Gram.snoc_adj hacc hinner) h
          · injection h with h'
            injection h' with h1 h2
            subst h1
            exact hacc

theorem evaluate_some {toks : List DynamicCalculation} (h : Gram false toks)
    (ctx : ResolutionContext) : ∃ r, evaluate toks ctx = some r := by
  obtain ⟨w, s, heq, hall, hlen⟩ := (processGram ctx h [] []).2 rfl (Or.inl rfl)
  simp only [List.append_nil] at heq
  obtain ⟨w₂, s₂, heq₂, hall₂, hlen₂, hcond₂⟩ :=
    popApply_seg (fun _ => true) s w [] [] hall hlen (Or.inl rfl)
  have hs₂ : s₂ = [] := by
    cases s₂ with
    | nil => rfl
    | cons y t =>
      obtain ⟨c, rfl⟩ := hall₂ y (by simp)
      have := hcond₂ c (by simp)
      simp at this
  subst hs₂
  obtain ⟨r, rfl⟩ := List.length_eq_one.mp hlen₂
  refine ⟨r, ?_⟩
  simp only [List.append_nil] at heq₂
  simp [evaluate, heq, heq₂]

/-! ### Lemmas: structure of parser output -/

theorem parse_calc_sound {s : String} {scale : ℚ}
    {toks : List DynamicCalculation}
    (h : Size.parse s = Except.ok (Size.DynamicCalculations scale toks)) :
    Gram false toks ∧ scale = 1 := by
  simp only [Size.parse] at h
  split_ifs at h
  · exact absurd h (by simp)
  · split at h <;> try exact absurd h (by simp)
    rename_i x0 toks₀ rest₀ heq
    split at h <;> try exact absurd h (by simp)
    split_ifs at h <;> simp at h
    obtain ⟨h1, h2⟩ := h
    subst h2
    exact ⟨(parser_sound _).2.1 _ _ _ heq, h1.symm⟩
  · split at h <;> exact absurd h (by simp)
  · split at h <;> exact absurd h (by simp)

theorem gram_ne_nil {b : Bool} {ts : List DynamicCalculation} (h : Gram b ts) :
    ts ≠ [] := by
  induction h with
  | operand h => simp
  | paren h ih => simp
  | single h ih => exact ih
  | snoc_op he ho ht ihe iht => simp
  | snoc_adj he hi ihe ihi => simp

theorem isOperand_not_op {t : DynamicCalculation} (h : isOperand t = true) :
    isOpToken t = false := by
  cases t <;> simp_all [isOperand, isOpToken]

theorem gram_balancedAux {b : Bool} {ts : List DynamicCalculation}
    (h : Gram b ts) :
    ∀ n rest, balancedAux n rest = true → balancedAux n (ts ++ rest) = true := by
  induction h with
  | @operand t h =>
    intro n rest hr
    cases t <;> simp_all [isOperand, balancedAux]
  | @paren e h ih =>
    intro n rest hr
    have h2 : balancedAux (n + 1)
        (e ++ (DynamicCalculation.ClosedParenthesis :: rest)) = true := by
      apply ih
      simpa [balancedAux] using hr
    simpa [balancedAux, List.append_assoc] using h2
  | single h ih => exact ih
  | @snoc_op e t o he ho ht ihe iht =>
    intro n rest hr
    have h2 : balancedAux n (t ++ rest) = true := iht n rest hr
    have h3 : balancedAux n (o :: (t ++ rest)) = true := by
      cases o <;> simp_all [isOpToken, balancedAux]
    have h4 := ihe n (o :: (t ++ rest)) h3
    simpa [List.append_assoc] using h4
  | @snoc_adj e inner he hi ihe ihi =>
    intro n rest hr
    have h2 : balancedAux (n + 1)
        (inner ++ (DynamicCalculation.ClosedParenthesis :: rest)) = true := by
      apply ihi
      simpa [balancedAux] using hr
    have h3 : balancedAux n (DynamicCalculation.OpenParenthesis ::
        (inner ++ (DynamicCalculation.ClosedParenthesis :: rest))) = true := by
      simpa [balancedAux] using h2
    have h4 := ihe n _ h3
    simpa [List.append_assoc] using h4

theorem getLast?_cons_ne {α : Type} (a : α) {l : List α} (h : l ≠ []) :
    (a :: l).getLast? = l.getLast? := by
  cases l with
  | nil => exact absurd rfl h
  | cons b t => exact List.getLast?_cons_cons

theorem gram_chain' {b : Bool} {ts : List DynamicCalculation} (h : Gram b ts) :
    List.Chain' (fun a b => isOpToken a = false ∨ isOpToken b = false) ts ∧
    (∀ x ∈ ts.head?, isOpToken x = false) ∧
    (∀ x ∈ ts.getLast?, isOpToken x = false) := by
  induction h with
  | @operand t h =>
    refine ⟨List.chain'_singleton t, ?_, ?_⟩ <;>
      simp [isOperand_not_op h]
  | @paren e h ih =>
    obtain ⟨ch, hhd, hlast⟩ := ih
    refine ⟨?_, ?_, ?_⟩
    · refine List.chain'_cons'.mpr ⟨fun y hy => Or.inl rfl, ?_⟩
      refine List.chain'_append.mpr ⟨ch, List.chain'_singleton _, ?_⟩
      intro x hx y hy
      simp at hy
      subst hy
      exact Or.inr rfl
    · simp [isOpToken]
    · intro x hx
      rw [show DynamicCalculation.OpenParenthesis ::
          (e ++ [DynamicCalculation.ClosedParenthesis]) =
          (DynamicCalculation.OpenParenthesis :: e) ++
          [DynamicCalculation.ClosedParenthesis] from by simp,
        List.getLast?_concat] at hx
      simp at hx
      subst hx
      rfl
  | single h ih => exact ih
  | @snoc_op e t o he ho ht ihe iht =>
    obtain ⟨che, hhde, hlaste⟩ := ihe
    obtain ⟨cht, hhdt, hlastt⟩ := iht
    refine ⟨?_, ?_, ?_⟩
    · refine List.chain'_append.mpr ⟨che, ?_, ?_⟩
      · exact List.chain'_cons'.mpr ⟨fun y hy => Or.inr (hhdt y hy), cht⟩
      · intro x hx y hy
        simp at hy
        subst hy
        exact Or.inl (hlaste x hx)
    · obtain ⟨a, e', rfl⟩ := List.exists_cons_of_ne_nil (gram_ne_nil he)
      intro x hx
      simp at hx
      subst hx
      exact hhde a (by simp)
    · intro x hx
      rw [List.getLast?_append_of_ne_nil _ (by simp),
        getLast?_cons_ne o (gram_ne_nil ht)] at hx
      exact hlastt x hx
  | @snoc_adj e inner he hi ihe ihi =>
    obtain ⟨che, hhde, hlaste⟩ := ihe
    obtain ⟨chi, hhdi, hlasti⟩ := ihi
    refine ⟨?_, ?_, ?_⟩
    · refine List.chain'_append.mpr ⟨che, ?_, ?_⟩
      · refine List.chain'_cons'.mpr ⟨fun y hy => Or.inl rfl, ?_⟩
        refine List.chain'_append.mpr ⟨chi, List.chain'_singleton _, ?_⟩
        intro x hx y hy
        simp at hy
        subst hy
        exact Or.inr rfl
      · intro x hx y hy
        simp at hy
        subst hy
        exact Or.inr rfl
    · obtain ⟨a, e', rfl⟩ := List.exists_cons_of_ne_nil (gram_ne_nil he)
      intro x hx
      simp at hx
      subst hx
      exact hhde a (by simp)
    · intro x hx
      rw [List.getLast?_append_of_ne_nil _ (by simp)] at hx
      rw [show DynamicCalculation.OpenParenthesis ::
          (inner ++ [DynamicCalculation.ClosedParenthesis]) =
          (DynamicCalculation.OpenParenthesis :: inner) ++
          [DynamicCalculation.ClosedParenthesis] from by simp,
        List.getLast?_concat] at hx
      simp at hx
      subst hx
      rfl

/-! ### Lemmas: shape of numeric literals -/

theorem takeWhile_nil_ne {l : List Char} {p : Char → Bool}
    (h : l.takeWhile p ≠ []) : l ≠ [] := by
  intro hl
  rw [hl] at h
  simp at h

theorem last_digit_all {l : List Char}
    (h1 : l.takeWhile Char.isDigit ≠ [])
    (h2 : l.dropWhile Char.isDigit = []) :
    ∃ c, l.getLast? = some c ∧ c.isDigit = true := by
  have hl : l.takeWhile Char.isDigit = l := by
    conv_rhs => rw [← List.takeWhile_append_dropWhile Char.isDigit l]
    rw [h2, List.append_nil]
  have hne : l ≠ [] := takeWhile_nil_ne h1
  cases hg : l.getLast? with
  | none => exact absurd (List.getLast?_eq_none_iff.mp hg) hne
  | some c =>
    refine ⟨c, rfl, ?_⟩
    have hc : c ∈ l := List.mem_of_mem_getLast? (by simp [hg])
    rw [← hl] at hc
    exact List.mem_takeWhile_imp hc

theorem stripSign_getLast {cs : List Char} (h : (stripSign cs).2 ≠ []) :
    cs.getLast? = (stripSign cs).2.getLast? := by
  rcases cs with _ | ⟨c, cs'⟩
  · simp [stripSign] at h
  · simp only [stripSign] at h ⊢
    split_ifs at h ⊢
    · exact getLast?_cons_ne c h
    · exact getLast?_cons_ne c h
    · rfl

theorem parseNumber_none_of_head {c : Char} {l : List Char}
    (h1 : ¬c = '-') (h2 : ¬c = '+') (h3 : c.isDigit = false) :
    parseNumber (c :: l) = none := by
  simp [parseNumber, stripSign, h1, h2, List.takeWhile_cons, h3]

theorem parseNumber_full_last {cs : List Char} {q : ℚ}
    (h : parseNumber cs = some (q, [])) :
    ∃ c, cs.getLast? = some c ∧ c.isDigit = true := by
  simp only [parseNumber] at h
  split at h
  · exact absurd h (by simp)
  · rename_i hds
    split at h
    · rename_i x r₂ hdrop
      split at h
      · exact absurd h (by simp)
      · rename_i hfs
        injection h with h'
        injection h' with h1 h2
        obtain ⟨c, hc, hcd⟩ := last_digit_all hfs h2
        refine ⟨c, ?_, hcd⟩
        have hr₂ : r₂ ≠ [] := takeWhile_nil_ne hfs
        have hcs₁ : (stripSign cs).2.getLast? = r₂.getLast? := by
          conv_lhs =>
            rw [← List.takeWhile_append_dropWhile Char.isDigit (stripSign cs).2]
          rw [hdrop, List.getLast?_append_of_ne_nil _ (by simp)]
          exact getLast?_cons_ne '.' hr₂
        rw [stripSign_getLast (takeWhile_nil_ne hds), hcs₁, hc]
    · injection h with h'
      injection h' with h1 h2
      obtain ⟨c, hc, hcd⟩ := last_digit_all hds h2
      refine ⟨c, ?_, hcd⟩
      rw [stripSign_getLast (takeWhile_nil_ne hds), hc]

theorem parseNumberFull_inner {cs : List Char} {q : ℚ}
    (h : parseNumberFull cs = some q) : parseNumber cs = some (q, []) := by
  unfold parseNumberFull at h
  split at h
  · rename_i q' heq
    injection h with h'
    subst h'
    exact heq
  · exact absurd h (by simp)

theorem parse_pixels_of_number {s : String} {q : ℚ}
    (h : parseNumberFull s.toList = some q) :
    Size.parse s = Except.ok (Size.Pixels q) := by
  have hpn : parseNumber s.toList = some (q, []) := parseNumberFull_inner h
  have ha : ¬s = "auto" := by
    intro hs
    subst hs
    simp [parseNumberFull, parseNumber, stripSign] at h
  have hb : ¬s.toList.take 5 = calcOpenChars := by
    intro hc
    rcases hl : s.toList with _ | ⟨c, cs'⟩
    · rw [hl] at hc
      simp [calcOpenChars] at hc
    · rw [hl] at hc
      simp only [List.take_succ_cons, calcOpenChars] at hc
      obtain ⟨hc1, _⟩ := List.cons.injEq .. ▸ hc
      subst hc1
      rw [hl, parseNumber_none_of_head (by decide) (by decide) (by decide)] at hpn
      exact absurd hpn (by simp)
  have hp : ¬s.toList.getLast? = some '%' := by
    intro hp
    obtain ⟨c, hc, hcd⟩ := parseNumber_full_last hpn
    rw [hc] at hp
    injection hp with hp'
    subst hp'
    simp at hcd
  simp only [Size.parse]
  rw [if_neg ha, if_neg hb, if_neg hp, h]

theorem parse_percentage_of_number {s : String} {q : ℚ}
    (h : parseNumberFull s.toList = some q) :
    Size.parse (s ++ "%") = Except.ok (Size.Percentage q) := by
  have hpn : parseNumber s.toList = some (q, []) := parseNumberFull_inner h
  have hlist : (s ++ "%").toList = s.toList ++ ['%'] := by simp
  have ha : ¬s ++ "%" = "auto" := by
    intro hs
    have h2 := congrArg List.getLast? (hlist ▸ congrArg String.toList hs)
    rw [List.getLast?_concat] at h2
    simp at h2
  have hb : ¬(s.toList ++ ['%']).take 5 = calcOpenChars := by
    intro hc
    rcases hl : s.toList with _ | ⟨c, cs'⟩
    · rw [hl] at hc
      simp [calcOpenChars] at hc
    · rw [hl] at hc
      simp only [List.cons_append, List.take_succ_cons, calcOpenChars] at hc
      obtain ⟨hc1, _⟩ := List.cons.injEq .. ▸ hc
      subst hc1
      rw [hl, parseNumber_none_of_head (by decide) (by decide) (by decide)] at hpn
      exact absurd hpn (by simp)
  have hp : (s.toList ++ ['%']).getLast? = some '%' := List.getLast?_concat _
  simp only [Size.parse]
  rw [hlist, if_neg ha, if_neg hb, if_pos hp, List.dropLast_concat, h]


/-! ### Claim theorems -/

/-- C1: parsing `"calc(90%- 5%* 123.6/ 50v(5 + 6))"` succeeds and yields a
calculation with scale exactly `1` whose token sequence is exactly, in order,
`Percentage 90, Sub, Percentage 5, Mul, Pixels 123.6, Div, RootPercentage 50,
OpenParenthesis, Pixels 5, Add, Pixels 6, ClosedParenthesis`; the whitespace
placed around the operators does not affect the resulting token sequence. -/
theorem claim_C1 :
    Size.parse "calc(90%- 5%* 123.6/ 50v(5 + 6))" =
      Except.ok (Size.DynamicCalculations 1
        [DynamicCalculation.Percentage 90, DynamicCalculation.Sub,
         DynamicCalculation.Percentage 5, DynamicCalculation.Mul,
         DynamicCalculation.Pixels 123.6, DynamicCalculation.Div,
         DynamicCalculation.RootPercentage 50,
         DynamicCalculation.OpenParenthesis, DynamicCalculation.Pixels 5,
         DynamicCalculation.Add, DynamicCalculation.Pixels 6,
         DynamicCalculation.ClosedParenthesis]) ∧
    Size.parse "calc(90%-5%*123.6/50v(5+6))" =
      Size.parse "calc(90%- 5%* 123.6/ 50v(5 + 6))" ∧
    Size.parse "calc( 90% - 5% * 123.6 / 50v (5 + 6) )" =
      Size.parse "calc(90%- 5%* 123.6/ 50v(5 + 6))" := by
  refine ⟨?_, ?_, ?_⟩ <;>
    (simp [Size.parse, parseExpr, parseTerm, parseExprLoop, parseNumber,
      stripSign, skipWs, binOpOf?, digitsToNat, calcOpenChars]
     try norm_num)

/-- C2: under every resolution context, the size parsed from
`"calc(2 + 3 * 4)"` resolves to `14` (not `20`) and the size parsed from
`"calc((2 + 3) * 4)"` resolves to `20`: `*` and `/` bind tighter than `+` and
`-`, equal precedence associates left to right (`"calc(8 - 3 - 2)"` resolves
to `3`), and parenthesized groups are resolved first. -/
theorem claim_C2 :
    Size.parse "calc(2 + 3 * 4)" =
      Except.ok (Size.DynamicCalculations 1
        [DynamicCalculation.Pixels 2, DynamicCalculation.Add,
         DynamicCalculation.Pixels 3, DynamicCalculation.Mul,
         DynamicCalculation.Pixels 4]) ∧
    Size.parse "calc((2 + 3) * 4)" =
      Except.ok (Size.DynamicCalculations 1
        [DynamicCalculation.OpenParenthesis, DynamicCalculation.Pixels 2,
         DynamicCalculation.Add, DynamicCalculation.Pixels 3,
         DynamicCalculation.ClosedParenthesis, DynamicCalculation.Mul,
         DynamicCalculation.Pixels 4]) ∧
    Size.parse "calc(8 - 3 - 2)" =
      Except.ok (Size.DynamicCalculations 1
        [DynamicCalculation.Pixels 8, DynamicCalculation.Sub,
         DynamicCalculation.Pixels 3, DynamicCalculation.Sub,
         DynamicCalculation.Pixels 2]) ∧
    (∀ ctx : ResolutionContext,
      resolve (Size.DynamicCalculations 1
        [DynamicCalculation.Pixels 2, DynamicCalculation.Add,
         DynamicCalculation.Pixels 3, DynamicCalculation.Mul,
         DynamicCalculation.Pixels 4]) ctx = 14) ∧
    (∀ ctx : ResolutionContext,
      resolve (Size.DynamicCalculations 1
        [DynamicCalculation.OpenParenthesis, DynamicCalculation.Pixels 2,
         DynamicCalculation.Add, DynamicCalculation.Pixels 3,
         DynamicCalculation.ClosedParenthesis, DynamicCalculation.Mul,
         DynamicCalculation.Pixels 4]) ctx = 20) ∧
    (∀ ctx : ResolutionContext,
      resolve (Size.DynamicCalculations 1
        [DynamicCalculation.Pixels 8, DynamicCalculation.Sub,
         DynamicCalculation.Pixels 3, DynamicCalculation.Sub,
         DynamicCalculation.Pixels 2]) ctx = 3) ∧
    (14 : ℚ) ≠ 20 := by
  refine ⟨?_, ?_, ?_, ?_, ?_, ?_, by norm_num⟩ <;>
    first
      | (simp [Size.parse, parseExpr, parseTerm, parseExprLoop, parseNumber,
          stripSign, skipWs, binOpOf?, digitsToNat, calcOpenChars])
      | (intro ctx
         simp [resolve, evaluate, processTokens, stepToken, stepBin, pushOp,
           popApply, applyBin, prec]
         norm_num)

/-- C2 witness: the precedence facts applied at a concrete context. -/
theorem claim_C2_witness :
    resolve (Size.DynamicCalculations 1
      [DynamicCalculation.Pixels 2, DynamicCalculation.Add,
       DynamicCalculation.Pixels 3, DynamicCalculation.Mul,
       DynamicCalculation.Pixels 4]) ⟨100, 200, 50⟩ = 14 :=
  claim_C2.2.2.2.1 ⟨100, 200, 50⟩

/-- C3 counterexample: the parser synthesizes no `Mul` token for implicit
multiplication — `"calc(50v(5 + 6))"` parses to a sequence in which the
`RootPercentage 50` operand is directly followed by `OpenParenthesis` and
which contains no `Mul` token at all, and an operand immediately followed by
another operand, `"calc(1 2)"`, is a parse error rather than an implicit
multiplication. -/
theorem claim_C3_counterexample :
    Size.parse "calc(50v(5 + 6))" =
      Except.ok (Size.DynamicCalculations 1
        [DynamicCalculation.RootPercentage 50,
         DynamicCalculation.OpenParenthesis, DynamicCalculation.Pixels 5,
         DynamicCalculation.Add, DynamicCalculation.Pixels 6,
         DynamicCalculation.ClosedParenthesis]) ∧
    DynamicCalculation.Mul ∉
      [DynamicCalculation.RootPercentage 50,
       DynamicCalculation.OpenParenthesis, DynamicCalculation.Pixels 5,
       DynamicCalculation.Add, DynamicCalculation.Pixels 6,
       DynamicCalculation.ClosedParenthesis] ∧
    Size.parse "calc(1 2)" = Except.error ParseError.InvalidExpressionStructure := by
  refine ⟨?_, by simp, ?_⟩ <;>
    simp [Size.parse, parseExpr, parseTerm, parseExprLoop, parseNumber,
      stripSign, skipWs, binOpOf?, digitsToNat, calcOpenChars]

/-- C3 amended: an operand or a close parenthesis immediately followed (after
optional whitespace) by an open parenthesis with no explicit operator between
them is accepted as implicit multiplication, but no `Mul` token is synthesized:
the group's tokens directly follow the operand in the output sequence and the
multiplication is applied by the evaluator (with root dimension `300`,
`"calc(50v(5 + 6))"` resolves to `150 * 11 = 1650`); an operand immediately
followed by another operand is a parse error. -/
theorem claim_C3 :
    Size.parse "calc(50v(5 + 6))" =
      Except.ok (Size.DynamicCalculations 1
        [DynamicCalculation.RootPercentage 50,
         DynamicCalculation.OpenParenthesis, DynamicCalculation.Pixels 5,
         DynamicCalculation.Add, DynamicCalculation.Pixels 6,
         DynamicCalculation.ClosedParenthesis]) ∧
    (∀ p m : ℚ,
      resolve (Size.DynamicCalculations 1
        [DynamicCalculation.RootPercentage 50,
         DynamicCalculation.OpenParenthesis, DynamicCalculation.Pixels 5,
         DynamicCalculation.Add, DynamicCalculation.Pixels 6,
         DynamicCalculation.ClosedParenthesis]) ⟨p, 300, m⟩ = 1650) ∧
    Size.parse "calc((1 + 2)(3 + 4))" =
      Except.ok (Size.DynamicCalculations 1
        [DynamicCalculation.OpenParenthesis, DynamicCalculation.Pixels 1,
         DynamicCalculation.Add, DynamicCalculation.Pixels 2,
         DynamicCalculation.ClosedParenthesis,
         DynamicCalculation.OpenParenthesis, DynamicCalculation.Pixels 3,
         DynamicCalculation.Add, DynamicCalculation.Pixels 4,
         DynamicCalculation.ClosedParenthesis]) ∧
    Size.parse "calc(2 (3))" =
      Except.ok (Size.DynamicCalculations 1
        [DynamicCalculation.Pixels 2, DynamicCalculation.OpenParenthesis,
         DynamicCalculation.Pixels 3, DynamicCalculation.ClosedParenthesis]) ∧
    Size.parse "calc(1 2)" = Except.error ParseError.InvalidExpressionStructure := by
  refine ⟨?_, ?_, ?_, ?_, ?_⟩ <;>
    first
      | (simp [Size.parse, parseExpr, parseTerm, parseExprLoop, parseNumber,
          stripSign, skipWs, binOpOf?, digitsToNat, calcOpenChars])
      | (intro p m
         simp [resolve, evaluate, processTokens, stepToken, stepBin, pushOp,
           popApply, applyBin, prec]
         norm_num)

/-- C3 witness: the implicit multiplication applied at a concrete context. -/
theorem claim_C3_witness :
    resolve (Size.DynamicCalculations 1
      [DynamicCalculation.RootPercentage 50,
       DynamicCalculation.OpenParenthesis, DynamicCalculation.Pixels 5,
       DynamicCalculation.Add, DynamicCalculation.Pixels 6,
       DynamicCalculation.ClosedParenthesis]) ⟨0, 300, 0⟩ = 1650 :=
  claim_C3.2.1 0 0

/-- C4 counterexample: `resolve` clamps its result to be non-negative, so
`resolve (Pixels (-5))` returns `0`, not the operand value `-5`; and a bare
`"50v"` is not one of the recognized top-level size shapes, so it does not
parse (the root-percentage unit exists only inside `calc(...)`). -/
theorem claim_C4_counterexample :
    resolve (Size.Pixels (-5)) ⟨200, 300, 0⟩ = 0 ∧ (0 : ℚ) ≠ -5 ∧
    Size.parse "50v" = Except.error ParseError.MalformedNumber := by
  refine ⟨by norm_num [resolve], by norm_num, ?_⟩
  simp [Size.parse, parseNumberFull, parseNumber, stripSign, digitsToNat,
    calcOpenChars]

/-- C4 amended: closed-form resolution follows the unit rules up to the final
non-negative clamp: `resolve (Pixels v)` is `max 0 v`, `resolve (Percentage p)`
is `max 0 (p / 100 * parent_dimension)`, `resolve Inner` is
`max 0 measured_content_size`; a `RootPercentage p` operand pushes
`p / 100 * root_dimension` during evaluation; with `parent_dimension = 200`
the size parsed from `"50%"` resolves to `100`, and with
`root_dimension = 300` the root-percentage size parsed from `"calc(50v)"`
resolves to `150` (a bare top-level `"50v"` is a parse error). -/
theorem claim_C4 :
    (∀ (v : ℚ) (ctx : ResolutionContext),
      resolve (Size.Pixels v) ctx = max 0 v) ∧
    (∀ (p : ℚ) (ctx : ResolutionContext),
      resolve (Size.Percentage p) ctx = max 0 (p / 100 * ctx.parent_dimension)) ∧
    (∀ ctx : ResolutionContext,
      resolve Size.Inner ctx = max 0 ctx.measured_content_size) ∧
    (∀ (p : ℚ) (ctx : ResolutionContext) (vals : List ℚ)
      (ops : List StackItem) (fl : Bool),
      stepToken ctx vals ops fl (DynamicCalculation.RootPercentage p) =
        some (p / 100 * ctx.root_dimension :: vals, ops, true)) ∧
    Size.parse "50%" = Except.ok (Size.Percentage 50) ∧
    (∀ r m : ℚ, resolve (Size.Percentage 50) ⟨200, r, m⟩ = 100) ∧
    Size.parse "calc(50v)" =
      Except.ok (Size.DynamicCalculations 1
        [DynamicCalculation.RootPercentage 50]) ∧
    (∀ p m : ℚ,
      resolve (Size.DynamicCalculations 1
        [DynamicCalculation.RootPercentage 50]) ⟨p, 300, m⟩ = 150) := by
  have hmax : ∀ r : ℚ, (if r < 0 then 0 else r) = max 0 r := by
    intro r
    rcases lt_or_le r 0 with hr | hr
    · rw [if_pos hr, max_eq_left hr.le]
    · rw [if_neg (not_lt.mpr hr), max_eq_right hr]
  refine ⟨fun v ctx => ?_, fun p ctx => ?_, fun ctx => ?_,
    fun p ctx vals ops fl => rfl, ?_, fun r m => ?_, ?_, fun p m => ?_⟩
  · simpa [resolve] using hmax v
  · simpa [resolve] using hmax (p / 100 * ctx.parent_dimension)
  · simpa [resolve] using hmax ctx.measured_content_size
  · simp [Size.parse, parseNumberFull, parseNumber, stripSign, digitsToNat,
      calcOpenChars]
  · norm_num [resolve]
  · simp [Size.parse, parseExpr, parseTerm, parseExprLoop, parseNumber,
      stripSign, skipWs, binOpOf?, digitsToNat, calcOpenChars]
  · norm_num [resolve, evaluate, processTokens, stepToken, stepBin, pushOp,
      popApply, applyBin, prec]

/-- C4 witness: the clamped unit rules applied at a concrete input. -/
theorem claim_C4_witness :
    resolve (Size.Pixels (-7)) ⟨1, 2, 3⟩ = max 0 (-7) :=
  claim_C4.1 (-7) ⟨1, 2, 3⟩

/-- C5: every valid number string parses to `Pixels` of its exact value,
every valid number string followed by `%` parses to `Percentage` of its exact
value, and `"auto"` parses to exactly `Inner`; in particular
`parse "123" = Pixels 123` and `parse "78.123%" = Percentage 78.123`. -/
theorem claim_C5 :
    (∀ (s : String) (q : ℚ), parseNumberFull s.toList = some q →
      Size.parse s = Except.ok (Size.Pixels q)) ∧
    (∀ (s : String) (q : ℚ), parseNumberFull s.toList = some q →
      Size.parse (s ++ "%") = Except.ok (Size.Percentage q)) ∧
    Size.parse "auto" = Except.ok Size.Inner ∧
    Size.parse "123" = Except.ok (Size.Pixels 123) ∧
    Size.parse "78.123%" = Except.ok (Size.Percentage 78.123) := by
  refine ⟨fun s q h => parse_pixels_of_number h,
    fun s q h => parse_percentage_of_number h, by simp [Size.parse], ?_, ?_⟩ <;>
    (simp [Size.parse, parseNumberFull, parseNumber, stripSign, digitsToNat,
      calcOpenChars]
     try norm_num)

/-- C5 witness: the universal pixel rule applied at the concrete string
`"42"`. -/
theorem claim_C5_witness :
    parseNumberFull (String.toList "42") = some 42 ∧
    Size.parse "42" = Except.ok (Size.Pixels 42) :=
  ⟨by simp [parseNumberFull, parseNumber, stripSign, digitsToNat],
   claim_C5.1 "42" 42
     (by simp [parseNumberFull, parseNumber, stripSign, digitsToNat])⟩

/-- C6: the malformed inputs `"calc(1+)"`, `"calc(1 2)"` and `"10%%"` each
cause `parse` to return a `ParseError`, and `parse` is total: on every input
string it returns either an error or a size, never anything else (the
shallow embedding of "never panics"). -/
theorem claim_C6 :
    Size.parse "calc(1+)" = Except.error ParseError.InvalidExpressionStructure ∧
    Size.parse "calc(1 2)" = Except.error ParseError.InvalidExpressionStructure ∧
    Size.parse "10%%" = Except.error ParseError.MalformedNumber ∧
    (∀ s : String,
      (∃ e, Size.parse s = Except.error e) ∨ ∃ sz, Size.parse s = Except.ok sz) := by
  refine ⟨?_, ?_, ?_, fun s => ?_⟩
  · simp [Size.parse, parseExpr, parseTerm, parseExprLoop, parseNumber,
      stripSign, skipWs, binOpOf?, digitsToNat, calcOpenChars]
  · simp [Size.parse, parseExpr, parseTerm, parseExprLoop, parseNumber,
      stripSign, skipWs, binOpOf?, digitsToNat, calcOpenChars]
  · simp [Size.parse, parseNumberFull, parseNumber, stripSign, digitsToNat,
      calcOpenChars]
  · cases h : Size.parse s with
    | error e => exact Or.inl ⟨e, rfl⟩
    | ok sz => exact Or.inr ⟨sz, rfl⟩

/-- C6 witness: totality applied at a concrete input. -/
theorem claim_C6_witness :
    (∃ e, Size.parse "garbage" = Except.error e) ∨
    ∃ sz, Size.parse "garbage" = Except.ok sz :=
  claim_C6.2.2.2 "garbage"

/-- C7: evaluation is total on parser output: for every token sequence
produced by a successful parse of a calc expression and every resolution
context, `evaluate` returns a value (a rational — in this model every value
is finite); a division whose right operand is zero is guarded and yields a
zero contribution: `"calc(5 / 0)"` resolves to `0` under every context. -/
theorem claim_C7 :
    (∀ (s : String) (scale : ℚ) (toks : List DynamicCalculation)
      (ctx : ResolutionContext),
      Size.parse s = Except.ok (Size.DynamicCalculations scale toks) →
      ∃ r, evaluate toks ctx = some r) ∧
    (∀ (a : ℚ) (ctx : ResolutionContext),
      evaluate [DynamicCalculation.Pixels a, DynamicCalculation.Div,
        DynamicCalculation.Pixels 0] ctx = some 0) ∧
    Size.parse "calc(5 / 0)" =
      Except.ok (Size.DynamicCalculations 1
        [DynamicCalculation.Pixels 5, DynamicCalculation.Div,
         DynamicCalculation.Pixels 0]) ∧
    (∀ ctx : ResolutionContext,
      resolve (Size.DynamicCalculations 1
        [DynamicCalculation.Pixels 5, DynamicCalculation.Div,
         DynamicCalculation.Pixels 0]) ctx = 0) := by
  refine ⟨fun s scale toks ctx h => evaluate_some (parse_calc_sound h).1 ctx,
    fun a ctx => ?_, ?_, fun ctx => ?_⟩
  · simp [evaluate, processTokens, stepToken, stepBin, pushOp, popApply,
      applyBin, prec]
  · simp [Size.parse, parseExpr, parseTerm, parseExprLoop, parseNumber,
      stripSign, skipWs, binOpOf?, digitsToNat, calcOpenChars]
  · simp [resolve, evaluate, processTokens, stepToken, stepBin, pushOp,
      popApply, applyBin, prec]

/-- C7 witness: evaluation succeeds on the parse of `"calc(1 + 1)"` at a
concrete context. -/
theorem claim_C7_witness :
    ∃ r, evaluate [DynamicCalculation.Pixels 1, DynamicCalculation.Add,
      DynamicCalculation.Pixels 1] ⟨10, 20, 30⟩ = some r :=
  claim_C7.1 "calc(1 + 1)" 1
    [DynamicCalculation.Pixels 1, DynamicCalculation.Add,
     DynamicCalculation.Pixels 1] ⟨10, 20, 30⟩
    (by simp [Size.parse, parseExpr, parseTerm, parseExprLoop, parseNumber,
      stripSign, skipWs, binOpOf?, digitsToNat, calcOpenChars])

/-- C8: for every size and every resolution context the resolved value handed
to the layout collaborator is clamped non-negative. -/
theorem claim_C8 :
    ∀ (size : Size) (ctx : ResolutionContext), 0 ≤ resolve size ctx := by
  intro size ctx
  simp only [resolve]
  split
  · exact le_refl 0
  · rename_i hr
    exact not_lt.mp hr

/-- C8 witness: non-negativity at a concrete negative operand. -/
theorem claim_C8_witness : 0 ≤ resolve (Size.Pixels (-3)) ⟨1, 2, 3⟩ :=
  claim_C8 (Size.Pixels (-3)) ⟨1, 2, 3⟩

/-- C9 counterexample: the token sequence the parser produces for the test
string `"calc(90%- 5%* 123.6/ 50v(5 + 6))"` does not satisfy strict
operator/operand alternation: the `RootPercentage 50` operand is directly
followed by an `OpenParenthesis` group with no operator token between them. -/
theorem claim_C9_counterexample :
    Size.parse "calc(90%- 5%* 123.6/ 50v(5 + 6))" =
      Except.ok (Size.DynamicCalculations 1
        [DynamicCalculation.Percentage 90, DynamicCalculation.Sub,
         DynamicCalculation.Percentage 5, DynamicCalculation.Mul,
         DynamicCalculation.Pixels 123.6, DynamicCalculation.Div,
         DynamicCalculation.RootPercentage 50,
         DynamicCalculation.OpenParenthesis, DynamicCalculation.Pixels 5,
         DynamicCalculation.Add, DynamicCalculation.Pixels 6,
         DynamicCalculation.ClosedParenthesis]) ∧
    strictlyAlternates
      [DynamicCalculation.Percentage 90, DynamicCalculation.Sub,
       DynamicCalculation.Percentage 5, DynamicCalculation.Mul,
       DynamicCalculation.Pixels 123.6, DynamicCalculation.Div,
       DynamicCalculation.RootPercentage 50,
       DynamicCalculation.OpenParenthesis, DynamicCalculation.Pixels 5,
       DynamicCalculation.Add, DynamicCalculation.Pixels 6,
       DynamicCalculation.ClosedParenthesis] = false := by
  refine ⟨?_, ?_⟩
  · simp [Size.parse, parseExpr, parseTerm, parseExprLoop, parseNumber,
      stripSign, skipWs, binOpOf?, digitsToNat, calcOpenChars]
    try norm_num
  · simp [strictlyAlternates, altCheck]

/-- C9 amended: every token sequence produced by a successful parse of a calc
expression is non-empty, parenthesis-balanced, contains no two consecutive
operator tokens, and derives from the expression grammar extended with the
implicit-multiplication adjacency (an operand or group may be directly
followed by a parenthesized group with no operator token between them);
strict operator/operand alternation as originally claimed fails exactly at
such adjacencies. -/
theorem claim_C9 :
    ∀ (s : String) (scale : ℚ) (toks : List DynamicCalculation),
      Size.parse s = Except.ok (Size.DynamicCalculations scale toks) →
      Gram false toks ∧ toks ≠ [] ∧ balancedAux 0 toks = true ∧
      List.Chain' (fun a b => isOpToken a = false ∨ isOpToken b = false) toks := by
  intro s scale toks h
  have hG := (parse_calc_sound h).1
  refine ⟨hG, gram_ne_nil hG, ?_, (gram_chain' hG).1⟩
  have hb := gram_balancedAux hG 0 [] (by simp [balancedAux])
  simpa using hb

/-- C9 witness: the invariants instantiated on the parse of
`"calc(1 + 2)"`. -/
theorem claim_C9_witness :
    Gram false [DynamicCalculation.Pixels 1, DynamicCalculation.Add,
      DynamicCalculation.Pixels 2] ∧
    [DynamicCalculation.Pixels 1, DynamicCalculation.Add,
      DynamicCalculation.Pixels 2] ≠ [] ∧
    balancedAux 0 [DynamicCalculation.Pixels 1, DynamicCalculation.Add,
      DynamicCalculation.Pixels 2] = true ∧
    List.Chain' (fun a b => isOpToken a = false ∨ isOpToken b = false)
      [DynamicCalculation.Pixels 1, DynamicCalculation.Add,
       DynamicCalculation.Pixels 2] :=
  claim_C9 "calc(1 + 2)" 1
    [DynamicCalculation.Pixels 1, DynamicCalculation.Add,
     DynamicCalculation.Pixels 2]
    (by simp [Size.parse, parseExpr, parseTerm, parseExprLoop, parseNumber,
      stripSign, skipWs, binOpOf?, digitsToNat, calcOpenChars])

/-- C10: parser and evaluator are deterministic pure functions of their
explicit inputs: two parses of the same string are equal, and two evaluations
of the same token sequence under the same context are equal. -/
theorem claim_C10 :
    (∀ (s : String) (r₁ r₂ : Except ParseError Size),
      Size.parse s = r₁ → Size.parse s = r₂ → r₁ = r₂) ∧
    (∀ (toks : List DynamicCalculation) (ctx : ResolutionContext)
      (v₁ v₂ : Option ℚ),
      evaluate toks ctx = v₁ → evaluate toks ctx = v₂ → v₁ = v₂) := by
  constructor
  · intro s r₁ r₂ h1 h2
    rw [← h1, ← h2]
  · intro toks ctx v₁ v₂ h1 h2
    rw [← h1, ← h2]

/-- C10 witness: determinism applied to a concrete parse. -/
theorem claim_C10_witness :
    Size.parse "123" = Except.ok (Size.Pixels 123) ∧
    (Except.ok (Size.Pixels 123) : Except ParseError Size) =
      Except.ok (Size.Pixels 123) :=
  ⟨by simp [Size.parse, parseNumberFull, parseNumber, stripSign, digitsToNat,
      calcOpenChars],
   claim_C10.1 "123" (Except.ok (Size.Pixels 123)) (Except.ok (Size.Pixels 123))
     (by simp [Size.parse, parseNumberFull, parseNumber, stripSign,
       digitsToNat, calcOpenChars])
     (by simp [Size.parse, parseNumberFull, parseNumber, stripSign,
       digitsToNat, calcOpenChars])⟩

end Torin
